import Mathlib

/-! Shallow embedding of the Casino TAO validator persistence layer
(casinotao/validator/database.py).

Each SQLite table is modelled as an explicit Lean value:

* `snapshots`      — a `SnapshotsTable` (auto-increment counter + rows in
  insertion order, ids strictly below the counter);
* `miner_data`     — a `List MinerRow` (uid is the primary key);
* `bet_events`     — a `List BetEvent` with the
  `UNIQUE(evm_address, game_id, block_number, side)` constraint realised by
  `cache_bet_event` (INSERT OR IGNORE);
* `wallet_mappings`— a `List WalletRow` (coldkey is UNIQUE).

SQLite REAL columns are modelled as `ℚ`; INTEGER columns as `Int`;
`CURRENT_TIMESTAMP` is modelled as an explicit `now` argument threaded into
each writer. Python `json.dumps` on an int-keyed dict coerces every key to
its decimal string; `json.loads` then yields a string-keyed dict. To keep
Python's dynamic typing of dict keys observable (an `int` key and its string
form are different keys), read-back dictionaries are keyed by `PyKey`,
the sum of Python ints and strings.

Storage-engine faults are modelled by a `fault : Bool` argument on the
`…E` variants of the writers: the Python functions without a try/except
(save_snapshot, update_miner_data, cleanup_old_events) propagate the
exception, modelled as `Except.error`; `save_wallet_mapping` has a
try/except returning a bool, so it is total and returns `false` on a fault.
-/

/-- A Python dictionary key: either an `int` or a `str`.  In Python,
`d[5]` and `d["5"]` are different lookups; this type keeps that
distinction in the model. -/
inductive PyKey where
| int : Int → PyKey
| str : String → PyKey
deriving DecidableEq

/-- Association lookup in a Python dict modelled as a key/value list
(first binding wins, as dict keys are unique). -/
def pyLookup (d : List (PyKey × ℚ)) (k : PyKey) : Option ℚ :=
(d.find? (fun p => decide (p.1 = k))).map (fun p => p.2)

/-- Serialization step `json.dumps({str(k): v for k, v in d.items()})` — key coercion to the
decimal string form, values kept. -/
def dumpsIntKeys (d : List (Int × ℚ)) : List (String × ℚ) :=
d.map (fun p => (toString p.1, p.2))

/-- Deserialization `json.loads` of a serialized object: a Python dict whose keys are
strings. -/
def loadsDict (d : List (String × ℚ)) : List (PyKey × ℚ) :=
d.map (fun p => (PyKey.str p.1, p.2))

/-- One row of the `snapshots` table. `timestamp` is the DATETIME column
filled by CURRENT_TIMESTAMP, modelled as the writer's `now`. -/
structure SnapshotRow where
  id : Nat
  block_number : Int
  timestamp : Int
  total_miners : Nat
  total_volume : ℚ
  scores_json : List (String × ℚ)
  volumes_json : List (String × ℚ)
deriving DecidableEq

/-- The `snapshots` table: the AUTOINCREMENT counter and the rows in
insertion order. -/
structure SnapshotsTable where
  nextId : Nat
  rows : List SnapshotRow
deriving DecidableEq

/-- The freshly created `snapshots` table (init_db). -/
def init_snapshots : SnapshotsTable := { nextId := 1, rows := [] }

/-- Well-formedness maintained by the AUTOINCREMENT id: every stored row's
id is strictly below the next id to be handed out. -/
def SnapshotsTable.WF (t : SnapshotsTable) : Prop :=
∀ r ∈ t.rows, r.id < t.nextId

/-- The row `save_snapshot` builds: `total_miners` is
`len([s for s in scores.values() if s > 0])`, `total_volume` is
`sum(volumes.values())`, and the two dicts are serialized with
string-coerced keys. -/
def snapshotRowOf (now : Int) (block_number : Int)
    (scores volumes : List (Int × ℚ)) (t : SnapshotsTable) : SnapshotRow :=
{ id := t.nextId,
  block_number := block_number,
  timestamp := now,
  total_miners := (scores.filter (fun p => decide (0 < p.2))).length,
  total_volume := (volumes.map (fun p => p.2)).sum,
  scores_json := dumpsIntKeys scores,
  volumes_json := dumpsIntKeys volumes }

/-- Model of `save_snapshot`: appends one new row with the derived aggregate
columns.  The Python function also accepts an optional `miner_details`
argument that is never written to the table, so it is omitted here. -/
def save_snapshot (now : Int) (block_number : Int)
    (scores volumes : List (Int × ℚ)) (t : SnapshotsTable) : SnapshotsTable :=
{ nextId := t.nextId + 1,
  rows := t.rows ++ [snapshotRowOf now block_number scores volumes t] }

/-- Insert a row into a list kept in descending-id order. -/
def insertDesc (r : SnapshotRow) : List SnapshotRow → List SnapshotRow
| [] => [r]
| x :: xs => if x.id ≤ r.id then r :: x :: xs else x :: insertDesc r xs

/-- The SQL ordering `ORDER BY id DESC`: the rows sorted by id, newest (largest id) first. -/
def sortByIdDesc (l : List SnapshotRow) : List SnapshotRow :=
l.foldr insertDesc []

/-- The dict returned by `get_latest_snapshot`/`get_snapshot_by_block`:
payload dicts are `json.loads`-ed, hence string-keyed. -/
structure SnapshotView where
  block_number : Int
  timestamp : Int
  total_miners : Nat
  total_volume : ℚ
  scores : List (PyKey × ℚ)
  volumes : List (PyKey × ℚ)
deriving DecidableEq

def SnapshotRow.toView (r : SnapshotRow) : SnapshotView :=
{ block_number := r.block_number,
  timestamp := r.timestamp,
  total_miners := r.total_miners,
  total_volume := r.total_volume,
  scores := loadsDict r.scores_json,
  volumes := loadsDict r.volumes_json }

/-- Model of `get_latest_snapshot`: `SELECT … ORDER BY id DESC LIMIT 1`, `None`
when the table is empty. -/
def get_latest_snapshot (t : SnapshotsTable) : Option SnapshotView :=
((sortByIdDesc t.rows).head?).map SnapshotRow.toView

/-- The summary dict returned by `get_snapshots` (no payload columns). -/
structure SnapshotSummary where
  block_number : Int
  timestamp : Int
  total_miners : Nat
  total_volume : ℚ
deriving DecidableEq

def SnapshotRow.toSummary (r : SnapshotRow) : SnapshotSummary :=
{ block_number := r.block_number,
  timestamp := r.timestamp,
  total_miners := r.total_miners,
  total_volume := r.total_volume }

/-- Model of `get_snapshots(limit)`: `SELECT … ORDER BY id DESC LIMIT ?`, summary
fields only. -/
def get_snapshots (limit : Nat) (t : SnapshotsTable) : List SnapshotSummary :=
((sortByIdDesc t.rows).take limit).map SnapshotRow.toSummary

/-- One row of the `miner_data` table (`uid` INTEGER PRIMARY KEY). -/
structure MinerRow where
  uid : Int
  hotkey : String
  coldkey : String
  evm_address : Option String
  daily_volumes_json : List ℚ
  weighted_volume : ℚ
  score : ℚ
  last_updated : Int
deriving DecidableEq

/-- Model of `update_miner_data`: `INSERT OR REPLACE INTO miner_data … VALUES
(…, CURRENT_TIMESTAMP)` — any existing row with the same uid is replaced
wholesale and `last_updated` is set to the write time. -/
def update_miner_data (now : Int) (uid : Int) (hotkey coldkey : String)
    (evm_address : Option String) (daily_volumes : List ℚ)
    (weighted_volume score : ℚ) (t : List MinerRow) : List MinerRow :=
(t.filter (fun r => !(decide (r.uid = uid)))) ++
  [{ uid := uid, hotkey := hotkey, coldkey := coldkey,
     evm_address := evm_address, daily_volumes_json := daily_volumes,
     weighted_volume := weighted_volume, score := score,
     last_updated := now }]

/-- Model of `get_miner_data`: `SELECT … FROM miner_data WHERE uid = ?`; the dict
returned is field-for-field the stored row (`daily_volumes_json` already
holds the deserialized list in this model). -/
def get_miner_data (uid : Int) (t : List MinerRow) : Option MinerRow :=
t.find? (fun r => decide (r.uid = uid))

/-- One row of the `bet_events` table (the surrogate `id` column is never
read back and is omitted). -/
structure BetEvent where
  evm_address : String
  game_id : Int
  amount : ℚ
  side : Int
  block_number : Int
  timestamp : Int
deriving DecidableEq

/-- The tuple covered by `UNIQUE(evm_address, game_id, block_number, side)`. -/
def BetEvent.key (e : BetEvent) : String × Int × Int × Int :=
(e.evm_address, e.game_id, e.block_number, e.side)

/-- Model of `cache_bet_event`: `INSERT OR IGNORE INTO bet_events …` — if a row with
the same unique tuple already exists the insert is ignored, otherwise the
row is appended. -/
def cache_bet_event (t : List BetEvent) (e : BetEvent) : List BetEvent :=
if t.any (fun x => decide (x.key = e.key)) then t else t ++ [e]

/-- Result of `cleanup_old_events`: the surviving table, plus the count
carried by the `bt.logging.info` line, which is emitted only when
`deleted > 0`.  The Python function itself returns `None`: nothing beyond
this state change reaches the caller. -/
structure CleanupResult where
  table : List BetEvent
  logged : Option Nat
deriving DecidableEq

/-- Model of `cleanup_old_events(days)`: `DELETE FROM bet_events WHERE timestamp < ?`
with `cutoff = int(now) - days*86400`; `deleted = cursor.rowcount`; the
count is logged only when positive and is not returned. -/
def cleanup_old_events (now : Int) (days : Int) (t : List BetEvent) :
    CleanupResult :=
let cutoff := now - days * 86400
let deleted := t.countP (fun e => decide (e.timestamp < cutoff))
{ table := t.filter (fun e => !(decide (e.timestamp < cutoff))),
  logged := if 0 < deleted then some deleted else none }

/-- Python `str.lower()` as used on EVM hex addresses: character-wise
lowercasing.  (Python lowercasing is Unicode-aware, but for the ASCII
hex addresses stored here it is exactly the character-wise map.) -/
def py_lower (s : String) : String :=
String.mk (s.data.map Char.toLower)

/-- One row of the `wallet_mappings` table (`coldkey` is UNIQUE;
`verified_at` is the DATETIME column filled by CURRENT_TIMESTAMP). -/
structure WalletRow where
  coldkey : String
  evm_address : String
  sig : String
  msg : String
  timestamp : Int
  verified_at : Int
deriving DecidableEq

/-- Model of `save_wallet_mapping`: `INSERT OR REPLACE INTO wallet_mappings …` with
the EVM address lowercased before storage.  The whole body is wrapped in
try/except, so a storage fault (modelled by `fault = true`) is caught:
the function always returns a `Bool` — `true` on success, `false` on a
fault — and on a fault the transaction is rolled back, leaving the table
unchanged. -/
def save_wallet_mapping (fault : Bool) (now : Int)
    (coldkey evm_address sig msg : String) (timestamp : Int)
    (t : List WalletRow) : List WalletRow × Bool :=
if fault then (t, false)
else ((t.filter (fun r => !(decide (r.coldkey = coldkey)))) ++
  [{ coldkey := coldkey, evm_address := py_lower evm_address,
     sig := sig, msg := msg, timestamp := timestamp, verified_at := now }],
  true)

/-- Model of `get_wallet_mapping`: `SELECT … FROM wallet_mappings WHERE coldkey = ?`. -/
def get_wallet_mapping (coldkey : String) (t : List WalletRow) :
    Option WalletRow :=
t.find? (fun r => decide (r.coldkey = coldkey))

/-- Model of `get_evm_address_for_coldkey`: projects `evm_address` out of
`get_wallet_mapping`. -/
def get_evm_address_for_coldkey (coldkey : String) (t : List WalletRow) :
    Option String :=
(get_wallet_mapping coldkey t).map (fun m => m.evm_address)

/-- Fault-aware `save_snapshot` as exposed to the storage engine: no
try/except in the Python body, so an engine fault propagates to the
caller as an exception. -/
def save_snapshotE (fault : Bool) (now block_number : Int)
    (scores volumes : List (Int × ℚ)) (t : SnapshotsTable) :
    Except Unit SnapshotsTable :=
if fault then Except.error () else Except.ok (save_snapshot now block_number scores volumes t)

/-- Fault-aware `update_miner_data` with the fault path: no try/except, the fault
propagates. -/
def update_miner_dataE (fault : Bool) (now uid : Int) (hotkey coldkey : String)
    (evm_address : Option String) (daily_volumes : List ℚ)
    (weighted_volume score : ℚ) (t : List MinerRow) :
    Except Unit (List MinerRow) :=
if fault then Except.error ()
else Except.ok (update_miner_data now uid hotkey coldkey evm_address daily_volumes weighted_volume score t)

/-- Fault-aware `cleanup_old_events` with the fault path: no try/except, the fault
propagates. -/
def cleanup_old_eventsE (fault : Bool) (now days : Int) (t : List BetEvent) :
    Except Unit CleanupResult :=
if fault then Except.error () else Except.ok (cleanup_old_events now days t)

/-! Helper lemmas -/

/-- Descending-by-id sortedness of a row list. -/
def SortedD (l : List SnapshotRow) : Prop :=
l.Pairwise (fun a b => b.id ≤ a.id)

lemma mem_insertDesc {a r : SnapshotRow} {l : List SnapshotRow} :
    a ∈ insertDesc r l ↔ a = r ∨ a ∈ l := by
  induction l with
  | nil => simp [insertDesc]
  | cons x xs ih =>
      simp only [insertDesc]
      split
      · simp [List.mem_cons]
      · simp [List.mem_cons, ih]
        tauto

lemma sortedD_insertDesc {r : SnapshotRow} {l : List SnapshotRow}
    (h : SortedD l) : SortedD (insertDesc r l) := by
  induction l with
  | nil => simp [insertDesc, SortedD]
  | cons x xs ih =>
      rcases List.pairwise_cons.mp h with ⟨hx, hxs⟩
      simp only [insertDesc]
      split
      · refine List.pairwise_cons.mpr ⟨?_, h⟩
        intro y hy
        rcases List.mem_cons.mp hy with rfl | hy'
        · assumption
        · exact le_trans (hx y hy') (by assumption)
      · refine List.pairwise_cons.mpr ⟨?_, ih hxs⟩
        intro y hy
        rcases mem_insertDesc.mp hy with rfl | hy'
        · omega
        · exact hx y hy'

lemma mem_sortByIdDesc {a : SnapshotRow} {l : List SnapshotRow} :
    a ∈ sortByIdDesc l ↔ a ∈ l := by
  induction l with
  | nil => simp [sortByIdDesc]
  | cons x xs ih =>
      show a ∈ insertDesc x (sortByIdDesc xs) ↔ _
      rw [mem_insertDesc, List.mem_cons, ih]

lemma sortedD_sortByIdDesc (l : List SnapshotRow) : SortedD (sortByIdDesc l) := by
  induction l with
  | nil => simp [sortByIdDesc, SortedD]
  | cons x xs ih => exact sortedD_insertDesc ih

lemma head_sortByIdDesc {l : List SnapshotRow} {r : SnapshotRow}
    (hr : r ∈ l) (hmax : ∀ x ∈ l, x ≠ r → x.id < r.id) :
    (sortByIdDesc l).head? = some r := by
  have hmem : r ∈ sortByIdDesc l := mem_sortByIdDesc.mpr hr
  have hs := sortedD_sortByIdDesc l
  rcases hh : sortByIdDesc l with _ | ⟨h, tl⟩
  · rw [hh] at hmem; simp at hmem
  · rw [hh] at hmem hs
    by_cases heq : h = r
    · simp [heq]
    · have hhl : h ∈ l := mem_sortByIdDesc.mp (by rw [hh]; exact List.mem_cons_self h tl)
      have h1 : h.id < r.id := hmax h hhl heq
      have hr_tl : r ∈ tl := by
        rcases List.mem_cons.mp hmem with rfl | htl
        · exact absurd rfl heq
        · exact htl
      have h2 : r.id ≤ h.id := (List.pairwise_cons.mp hs).1 r hr_tl
      omega

lemma take_one_of_head {α : Type} {l : List α} {r : α}
    (h : l.head? = some r) : l.take 1 = [r] := by
  cases l with
  | nil => simp at h
  | cons x xs => simp at h; simp [h]

lemma WF_save_snapshot {t : SnapshotsTable} (h : t.WF)
    (now block_number : Int) (scores volumes : List (Int × ℚ)) :
    (save_snapshot now block_number scores volumes t).WF := by
  intro r hr
  simp only [save_snapshot, List.mem_append, List.mem_singleton] at hr
  rcases hr with hr | rfl
  · exact lt_trans (h r hr) (by simp [save_snapshot])
  · simp [snapshotRowOf, save_snapshot]

lemma head_after_save {t : SnapshotsTable} (h : t.WF)
    (now block_number : Int) (scores volumes : List (Int × ℚ)) :
    (sortByIdDesc (save_snapshot now block_number scores volumes t).rows).head? =
      some (snapshotRowOf now block_number scores volumes t) := by
  rw [head_sortByIdDesc (r := snapshotRowOf now block_number scores volumes t)]
  · simp [save_snapshot]
  · intro x hx hne
    simp only [save_snapshot, List.mem_append, List.mem_singleton] at hx
    rcases hx with hx | rfl
    · exact h x hx
    · exact absurd rfl hne

lemma latest_after_save {t : SnapshotsTable} (h : t.WF)
    (now block_number : Int) (scores volumes : List (Int × ℚ)) :
    get_latest_snapshot (save_snapshot now block_number scores volumes t) =
      some (snapshotRowOf now block_number scores volumes t).toView := by
  unfold get_latest_snapshot
  rw [head_after_save h]
  rfl

lemma find?_filter_append {α : Type} (p : α → Bool) (l : List α) (a : α)
    (ha : p a = true) :
    ((l.filter (fun x => !(p x))) ++ [a]).find? p = some a := by
  induction l with
  | nil => simp [ha]
  | cons x xs ih =>
      by_cases hx : p x
      · simp only [List.filter_cons, hx]
        simpa using ih
      · simp only [List.filter_cons]
        rw [if_pos (by simp [hx]), List.cons_append,
          List.find?_cons_of_neg _ (by simp [hx])]
        exact ih

lemma countP_le_one_of_nodup_map {α β : Type} [DecidableEq β]
    (f : α → β) (l : List α) (h : (l.map f).Nodup) (b : β) :
    l.countP (fun x => decide (f x = b)) ≤ 1 := by
  induction l with
  | nil => simp
  | cons x xs ih =>
      rw [List.map_cons, List.nodup_cons] at h
      rcases h with ⟨hx, hxs⟩
      rw [List.countP_cons]
      by_cases hfx : f x = b
      · have hz : xs.countP (fun y => decide (f y = b)) = 0 := by
          rw [List.countP_eq_zero]
          intro y hy hyb
          exact hx (by rw [← hfx] at hyb; rw [← (of_decide_eq_true hyb)]; exact List.mem_map_of_mem f hy)
        simp [hfx, hz]
      · simp [hfx]
        exact le_trans (ih hxs) (by omega)

lemma nodup_uid_update (now uid : Int) (hotkey coldkey : String)
    (evm_address : Option String) (daily_volumes : List ℚ)
    (weighted_volume score : ℚ) {t : List MinerRow}
    (h : (t.map (fun r => r.uid)).Nodup) :
    ((update_miner_data now uid hotkey coldkey evm_address daily_volumes
        weighted_volume score t).map (fun r => r.uid)).Nodup := by
  unfold update_miner_data
  rw [List.map_append]
  rw [List.nodup_append]
  refine ⟨?_, by simp, ?_⟩
  · exact ((List.filter_sublist t).map (fun r => r.uid)).nodup h
  · intro a ha hb
    simp only [List.map_singleton, List.mem_singleton] at hb
    rcases List.mem_map.mp ha with ⟨r, hr, hruid⟩
    have h2 := List.of_mem_filter hr
    simp only [Bool.not_eq_true', decide_eq_false_iff_not] at h2
    exact h2 (by rw [hruid, hb])

lemma pyLookup_loads_dumps {d : List (Int × ℚ)} {K : Int} {v : ℚ}
    (hnd : (d.map (fun p => toString p.1)).Nodup) (hmem : (K, v) ∈ d) :
    pyLookup (loadsDict (dumpsIntKeys d)) (PyKey.str (toString K)) = some v := by
  induction d with
  | nil => simp at hmem
  | cons x xs ih =>
      rw [List.map_cons, List.nodup_cons] at hnd
      rcases hnd with ⟨hx, hxs⟩
      rcases List.mem_cons.mp hmem with heq | htail
      · rw [← heq]
        simp [pyLookup, loadsDict, dumpsIntKeys, List.find?_cons_of_pos]
      · have hne : toString x.1 ≠ toString K := by
          intro hcontra
          apply hx
          rw [hcontra]
          have hmm := List.mem_map_of_mem (fun p : Int × ℚ => toString p.1) htail
          simpa using hmm
        simp only [pyLookup, loadsDict, dumpsIntKeys, List.map_cons]
        rw [List.find?_cons_of_neg _ (by simp [hne])]
        exact ih hxs htail

lemma cache_key_present_noop {t : List BetEvent} {e : BetEvent}
    (h : ∃ p ∈ t, p.key = e.key) : cache_bet_event t e = t := by
  unfold cache_bet_event
  rw [if_pos]
  rcases h with ⟨p, hp, hk⟩
  exact List.any_eq_true.mpr ⟨p, hp, by simp [hk]⟩

lemma cache_key_absent_append {t : List BetEvent} {e : BetEvent}
    (h : ∀ p ∈ t, p.key ≠ e.key) : cache_bet_event t e = t ++ [e] := by
  unfold cache_bet_event
  rw [if_neg]
  intro hc
  rcases List.any_eq_true.mp hc with ⟨p, hp, hk⟩
  exact h p hp (of_decide_eq_true hk)

lemma cache_preserves_nodup {t : List BetEvent} {e : BetEvent}
    (h : (t.map BetEvent.key).Nodup) :
    ((cache_bet_event t e).map BetEvent.key).Nodup := by
  by_cases hc : ∃ p ∈ t, p.key = e.key
  · rw [cache_key_present_noop hc]; exact h
  · push_neg at hc
    rw [cache_key_absent_append hc, List.map_append, List.nodup_append]
    refine ⟨h, by simp, ?_⟩
    intro a ha hb
    simp only [List.map_singleton, List.mem_singleton] at hb
    rcases List.mem_map.mp ha with ⟨p, hp, hpk⟩
    exact hc p hp (hpk.trans hb)

lemma foldl_cache_nodup (evs : List BetEvent) :
    ∀ t : List BetEvent, (t.map BetEvent.key).Nodup →
      (((evs.foldl cache_bet_event t)).map BetEvent.key).Nodup := by
  induction evs with
  | nil => intro t h; simpa using h
  | cons e evs ih =>
      intro t h
      exact ih (cache_bet_event t e) (cache_preserves_nodup h)

lemma countP_add_length_filter {α : Type} (p : α → Bool) (l : List α) :
    l.countP p + (l.filter (fun a => !(p a))).length = l.length := by
  induction l with
  | nil => simp
  | cons x xs ih =>
      cases hx : p x <;> simp [List.countP_cons, List.filter_cons, hx] <;> omega

/-! Claim theorems -/

/-- C1: For every call to SaveSnapshot(blockNumber, scores, volumes), an
immediately following GetLatestSnapshot() returns the just-written record,
whose total_miners equals the number of entries in scores with value
strictly greater than 0 and whose total_volume equals the sum of all
values in volumes. -/
theorem save_snapshot_then_get_latest (t : SnapshotsTable) (h : t.WF)
    (now block_number : Int) (scores volumes : List (Int × ℚ)) :
    get_latest_snapshot (save_snapshot now block_number scores volumes t) =
      some { block_number := block_number,
             timestamp := now,
             total_miners := (scores.filter (fun p => decide (0 < p.2))).length,
             total_volume := (volumes.map (fun p => p.2)).sum,
             scores := loadsDict (dumpsIntKeys scores),
             volumes := loadsDict (dumpsIntKeys volumes) } := by
  rw [latest_after_save h]
  rfl

/-- Witness for C1 at a concrete table and inputs: one of two scores is
strictly positive, and the two volumes sum to 7. -/
theorem save_snapshot_then_get_latest_witness :
    init_snapshots.WF ∧
    get_latest_snapshot
        (save_snapshot 50 200 [(1, 2), (2, 0)] [(1, 3), (2, 4)] init_snapshots) =
      some { block_number := 200, timestamp := 50, total_miners := 1,
             total_volume := 7,
             scores := [(PyKey.str "1", 2), (PyKey.str "2", 0)],
             volumes := [(PyKey.str "1", 3), (PyKey.str "2", 4)] } := by
  refine ⟨by intro r hr; simp [init_snapshots] at hr, ?_⟩
  rw [save_snapshot_then_get_latest init_snapshots
    (by intro r hr; simp [init_snapshots] at hr) 50 200]
  simp only [Option.some_inj, SnapshotView.mk.injEq]
  exact ⟨trivial, trivial, by decide, by norm_num, by decide, by decide⟩

/-- C2: starting from the empty table, no sequence of CacheEvent calls
produces two rows with the same (evm_address, game_id, block_number, side)
tuple; inserting an already-present tuple is a silent no-op adding no row;
inserting an absent tuple appends exactly one row — in particular a tuple
that agrees on (evm_address, game_id, block_number) but differs in side
adds a second row. -/
theorem cache_bet_event_unique :
    (∀ evs : List BetEvent,
        ((evs.foldl cache_bet_event []).map BetEvent.key).Nodup) ∧
    (∀ (t : List BetEvent) (e : BetEvent),
        (∃ p ∈ t, p.key = e.key) → cache_bet_event t e = t) ∧
    (∀ (t : List BetEvent) (e : BetEvent),
        (∀ p ∈ t, p.key ≠ e.key) → cache_bet_event t e = t ++ [e]) ∧
    (∀ (t : List BetEvent) (e e2 : BetEvent),
        e ∈ t → e2.evm_address = e.evm_address → e2.game_id = e.game_id →
        e2.block_number = e.block_number → e2.side ≠ e.side →
        (∀ p ∈ t, p.key ≠ e2.key) →
        (cache_bet_event t e2).length = t.length + 1) := by
  refine ⟨?_, ?_, ?_, ?_⟩
  · intro evs
    exact foldl_cache_nodup evs [] (by simp)
  · intro t e h
    exact cache_key_present_noop h
  · intro t e h
    exact cache_key_absent_append h
  · intro t e e2 hmem h1 h2 h3 h4 habs
    rw [cache_key_absent_append habs]
    simp

/-- Witness for C2: re-caching the same tuple (even with another amount)
leaves one row; caching the same (address, game, block) with the other
side yields two rows. -/
theorem cache_bet_event_unique_witness :
    cache_bet_event [⟨"0xaa", 1, 5, 0, 10, 100⟩] ⟨"0xaa", 1, 7, 0, 10, 100⟩ =
      [⟨"0xaa", 1, 5, 0, 10, 100⟩] ∧
    (cache_bet_event [⟨"0xaa", 1, 5, 0, 10, 100⟩]
        ⟨"0xaa", 1, 5, 1, 10, 100⟩).length = 2 := by
  constructor
  · exact cache_bet_event_unique.2.1 _ _
      ⟨⟨"0xaa", 1, 5, 0, 10, 100⟩, by simp, by decide⟩
  · exact cache_bet_event_unique.2.2.2 _ ⟨"0xaa", 1, 5, 0, 10, 100⟩ _
      (by simp) rfl rfl rfl (by decide) (by decide)

/-- C3: the miner-state table keeps at most one row per uid and a second
UpsertMinerState for the same uid fully replaces the first row — the row
read back carries only the second write's fields and its last_updated is
the second write's time. -/
theorem miner_upsert_replaces (t : List MinerRow)
    (h : (t.map (fun r => r.uid)).Nodup)
    (now1 now2 uid : Int) (hk1 ck1 : String) (e1 : Option String)
    (d1 : List ℚ) (w1 s1 : ℚ) (hk2 ck2 : String) (e2 : Option String)
    (d2 : List ℚ) (w2 s2 : ℚ) :
    (((update_miner_data now2 uid hk2 ck2 e2 d2 w2 s2
        (update_miner_data now1 uid hk1 ck1 e1 d1 w1 s1 t)).map
          (fun r => r.uid)).Nodup) ∧
    (∀ u : Int,
      (update_miner_data now2 uid hk2 ck2 e2 d2 w2 s2
        (update_miner_data now1 uid hk1 ck1 e1 d1 w1 s1 t)).countP
          (fun r => decide (r.uid = u)) ≤ 1) ∧
    get_miner_data uid
        (update_miner_data now2 uid hk2 ck2 e2 d2 w2 s2
          (update_miner_data now1 uid hk1 ck1 e1 d1 w1 s1 t)) =
      some { uid := uid, hotkey := hk2, coldkey := ck2, evm_address := e2,
             daily_volumes_json := d2, weighted_volume := w2, score := s2,
             last_updated := now2 } := by
  have hn1 := nodup_uid_update now1 uid hk1 ck1 e1 d1 w1 s1 (t := t) h
  have hn2 := nodup_uid_update now2 uid hk2 ck2 e2 d2 w2 s2 hn1
  refine ⟨hn2, fun u => countP_le_one_of_nodup_map _ _ hn2 u, ?_⟩
  show List.find? _ (_ ++ _) = _
  exact find?_filter_append _ _ _ (by simp)

/-- Witness for C3: two upserts for uid 3 leave one row holding only the
second write's fields. -/
theorem miner_upsert_replaces_witness :
    ((([] : List MinerRow).map (fun r => r.uid)).Nodup) ∧
    get_miner_data 3
        (update_miner_data 20 3 "h2" "c2" (some "0xbb") [9] 8 7
          (update_miner_data 10 3 "h1" "c1" none [1] 2 3 [])) =
      some { uid := 3, hotkey := "h2", coldkey := "c2",
             evm_address := some "0xbb", daily_volumes_json := [9],
             weighted_volume := 8, score := 7, last_updated := 20 } := by
  refine ⟨by simp, ?_⟩
  exact (miner_upsert_replaces [] (by simp) 10 20 3 "h1" "c1" none [1] 2 3
    "h2" "c2" (some "0xbb") [9] 8 7).2.2

/-- C4: the EVM address is normalized to lowercase before storage: after
a successful SaveWalletMapping, both GetWalletMapping and
GetEvmAddressForColdkey return the lowercase form of the saved address. -/
theorem wallet_mapping_lowercase_roundtrip (t : List WalletRow) (now : Int)
    (ck a s m : String) (ts : Int) :
    get_evm_address_for_coldkey ck
        (save_wallet_mapping false now ck a s m ts t).1 = some (py_lower a) ∧
    (get_wallet_mapping ck (save_wallet_mapping false now ck a s m ts t).1).map
        (fun r => r.evm_address) = some (py_lower a) := by
  have hfind : get_wallet_mapping ck (save_wallet_mapping false now ck a s m ts t).1 =
      some { coldkey := ck, evm_address := py_lower a, sig := s, msg := m,
             timestamp := ts, verified_at := now } := by
    show List.find? _ (_ ++ _) = _
    exact find?_filter_append _ _ _ (by simp)
  refine ⟨?_, by rw [hfind]; rfl⟩
  unfold get_evm_address_for_coldkey
  rw [hfind]
  rfl

/-- Witness for C4: a mixed-case address "0xABC" reads back as "0xabc". -/
theorem wallet_mapping_lowercase_roundtrip_witness :
    get_evm_address_for_coldkey "ck1"
        (save_wallet_mapping false 9 "ck1" "0xABC" "sg" "ms" 1 []).1 =
      some "0xabc" := by
  rw [(wallet_mapping_lowercase_roundtrip [] 9 "ck1" "0xABC" "sg" "ms" 1).1]
  rfl

/-- C5: PurgeOlderThan(days=14) at clock reading `now` keeps exactly the
events with timestamp not strictly below now - 14*86400 and deletes the
rest; rerunning it on the result (same clock reading) is a no-op that
removes zero events (no log is emitted). -/
theorem purge_old_events_exact (now : Int) (t : List BetEvent) :
    (∀ e : BetEvent,
        e ∈ (cleanup_old_events now 14 t).table ↔
          (e ∈ t ∧ ¬ e.timestamp < now - 14 * 86400)) ∧
    cleanup_old_events now 14 ((cleanup_old_events now 14 t).table) =
      { table := (cleanup_old_events now 14 t).table, logged := none } := by
  constructor
  · intro e
    simp [cleanup_old_events, List.mem_filter]
  · set k := (cleanup_old_events now 14 t).table with hk
    have hmem : ∀ e ∈ k, (!(decide (e.timestamp < now - 14 * 86400))) = true := by
      intro e he
      rw [hk] at he
      simp only [cleanup_old_events] at he
      exact (List.mem_filter.mp he).2
    have hz : k.countP (fun e => decide (e.timestamp < now - 14 * 86400)) = 0 := by
      rw [List.countP_eq_zero]
      intro e he
      have h2 := hmem e he
      simpa using h2
    show cleanup_old_events now 14 k = { table := k, logged := none }
    simp only [cleanup_old_events]
    rw [List.filter_eq_self.mpr hmem, hz]
    simp

/-- Witness for C5: at now = 1209700 (cutoff 100) the event at timestamp
50 is removed and the one at 150 survives; the second run removes
nothing. -/
theorem purge_old_events_exact_witness :
    (cleanup_old_events 1209700 14
        [⟨"0xaa", 1, 5, 0, 10, 50⟩, ⟨"0xbb", 2, 6, 1, 11, 150⟩]).table =
      [⟨"0xbb", 2, 6, 1, 11, 150⟩] ∧
    cleanup_old_events 1209700 14 [⟨"0xbb", 2, 6, 1, 11, 150⟩] =
      { table := [⟨"0xbb", 2, 6, 1, 11, 150⟩], logged := none } := by
  refine ⟨by decide, ?_⟩
  have h := (purge_old_events_exact 1209700
    [⟨"0xaa", 1, 5, 0, 10, 50⟩, ⟨"0xbb", 2, 6, 1, 11, 150⟩]).2
  have ht : (cleanup_old_events 1209700 14
      [⟨"0xaa", 1, 5, 0, 10, 50⟩, ⟨"0xbb", 2, 6, 1, 11, 150⟩]).table =
      [⟨"0xbb", 2, 6, 1, 11, 150⟩] := by decide
  rw [ht] at h
  exact h

/-- C10: first-writer-wins on the non-key fields — re-caching a tuple
whose unique key is already present (possibly with a different amount
and/or timestamp) leaves the table unchanged, so the first row with its
amount and timestamp survives and the later values are discarded. -/
theorem cache_event_first_writer_wins (t : List BetEvent) (e1 e2 : BetEvent)
    (hmem : e1 ∈ t) (hkey : e1.key = e2.key) :
    cache_bet_event t e2 = t ∧ e1 ∈ cache_bet_event t e2 := by
  have h := cache_key_present_noop (t := t) (e := e2) ⟨e1, hmem, hkey⟩
  exact ⟨h, by rw [h]; exact hmem⟩

/-- Witness for C10: re-caching with amount 9 and timestamp 777 keeps the
first row (amount 5, timestamp 100) and discards the new values. -/
theorem cache_event_first_writer_wins_witness :
    cache_bet_event [⟨"0xaa", 1, 5, 0, 10, 100⟩] ⟨"0xaa", 1, 9, 0, 10, 777⟩ =
      [⟨"0xaa", 1, 5, 0, 10, 100⟩] :=
  (cache_event_first_writer_wins [⟨"0xaa", 1, 5, 0, 10, 100⟩]
    ⟨"0xaa", 1, 5, 0, 10, 100⟩ ⟨"0xaa", 1, 9, 0, 10, 777⟩
    (by simp) (by decide)).1

lemma cleanup_logged (now days : Int) (t : List BetEvent) :
    (cleanup_old_events now days t).logged =
      (if 0 < t.countP (fun e => decide (e.timestamp < now - days * 86400))
       then some (t.countP (fun e => decide (e.timestamp < now - days * 86400)))
       else none) := rfl

lemma cleanup_table (now days : Int) (t : List BetEvent) :
    (cleanup_old_events now days t).table =
      t.filter (fun e => !(decide (e.timestamp < now - days * 86400))) := rfl

/-- C6 counterexample: a snapshot written with the integer key 7 reads
back with no binding under the key 7 — the Python dict returned by
GetLatestSnapshot holds the value only under the string key "7", so
"write with key K, read back with key K" fails for K = 7. -/
theorem snapshot_intkey_counterexample :
    (get_latest_snapshot (save_snapshot 5 100 [(7, 2)] [(7, 3)] init_snapshots)).map
        (fun sv => pyLookup sv.scores (PyKey.int 7)) = some none ∧
    (get_latest_snapshot (save_snapshot 5 100 [(7, 2)] [(7, 3)] init_snapshots)).map
        (fun sv => pyLookup sv.scores (PyKey.str "7")) = some (some 2) := by
  exact ⟨by decide, by decide⟩

/-- C6 (amended): the round trip holds under the string form of the key:
for every key K present in the input scores mapping (and L in volumes),
reading the snapshot back returns the stored value under the key str(K)
(resp. str(L)), the form the write coerced the key to. -/
theorem snapshot_strkey_roundtrip (t : SnapshotsTable) (h : t.WF)
    (now block_number : Int) (scores volumes : List (Int × ℚ))
    (K L : Int) (v w : ℚ)
    (hks : (scores.map (fun p => toString p.1)).Nodup)
    (hkv : (volumes.map (fun p => toString p.1)).Nodup)
    (hKs : (K, v) ∈ scores) (hLv : (L, w) ∈ volumes) :
    (get_latest_snapshot (save_snapshot now block_number scores volumes t)).map
        (fun sv => (pyLookup sv.scores (PyKey.str (toString K)),
                    pyLookup sv.volumes (PyKey.str (toString L)))) =
      some (some v, some w) := by
  rw [latest_after_save h]
  simp only [Option.map_some', SnapshotRow.toView, snapshotRowOf]
  rw [pyLookup_loads_dumps hks hKs, pyLookup_loads_dumps hkv hLv]

/-- Witness for the amended C6: keys 7 and 8 read back under "7" and "8". -/
theorem snapshot_strkey_roundtrip_witness :
    (get_latest_snapshot (save_snapshot 4 99 [(7, 2)] [(8, 3)] init_snapshots)).map
        (fun sv => (pyLookup sv.scores (PyKey.str "7"),
                    pyLookup sv.volumes (PyKey.str "8"))) =
      some (some 2, some 3) :=
  snapshot_strkey_roundtrip init_snapshots
    (by intro r hr; simp [init_snapshots] at hr)
    4 99 [(7, 2)] [(8, 3)] 7 8 2 3 (by decide) (by decide) (by decide) (by decide)

/-- C7: snapshot recency is by insertion order, not block_number: after
writing two snapshots both with block_number 100, ListSnapshots(limit=1)
returns the summary of the second (most recently inserted) write and
GetLatestSnapshot() returns its full view. -/
theorem snapshot_recency_insertion_order (t : SnapshotsTable) (h : t.WF)
    (now1 now2 : Int) (sc1 v1 sc2 v2 : List (Int × ℚ)) :
    get_snapshots 1
        (save_snapshot now2 100 sc2 v2 (save_snapshot now1 100 sc1 v1 t)) =
      [{ block_number := 100, timestamp := now2,
         total_miners := (sc2.filter (fun p => decide (0 < p.2))).length,
         total_volume := (v2.map (fun p => p.2)).sum }] ∧
    get_latest_snapshot
        (save_snapshot now2 100 sc2 v2 (save_snapshot now1 100 sc1 v1 t)) =
      some { block_number := 100, timestamp := now2,
             total_miners := (sc2.filter (fun p => decide (0 < p.2))).length,
             total_volume := (v2.map (fun p => p.2)).sum,
             scores := loadsDict (dumpsIntKeys sc2),
             volumes := loadsDict (dumpsIntKeys v2) } := by
  have h1 : (save_snapshot now1 100 sc1 v1 t).WF := WF_save_snapshot h now1 100 sc1 v1
  constructor
  · unfold get_snapshots
    rw [take_one_of_head (head_after_save h1 now2 100 sc2 v2)]
    rfl
  · rw [latest_after_save h1]
    rfl

/-- Witness for C7: two writes at block 100; the listing returns the
second one (timestamp 8), not the first (timestamp 7). -/
theorem snapshot_recency_insertion_order_witness :
    init_snapshots.WF ∧
    get_snapshots 1 (save_snapshot 8 100 [(1, 5)] []
        (save_snapshot 7 100 [(1, 4)] [(1, 4)] init_snapshots)) =
      [{ block_number := 100, timestamp := 8, total_miners := 1,
         total_volume := 0 }] := by
  refine ⟨by intro r hr; simp [init_snapshots] at hr, ?_⟩
  rw [(snapshot_recency_insertion_order init_snapshots
    (by intro r hr; simp [init_snapshots] at hr) 7 8 [(1, 4)] [(1, 4)]
    [(1, 5)] []).1]
  decide

/-- C8: SaveWalletMapping returns a boolean on every call — true exactly
when no storage fault occurred, false when one did (the fault is caught
inside, as the total return type shows) — while the snapshot,
miner-state and purge writers propagate a storage fault to the caller as
an error. -/
theorem wallet_mapping_error_contract :
    (∀ (fault : Bool) (now : Int) (ck a s m : String) (ts : Int)
        (t : List WalletRow),
        (save_wallet_mapping fault now ck a s m ts t).2 = !fault) ∧
    (∀ (now block_number : Int) (scores volumes : List (Int × ℚ))
        (t : SnapshotsTable),
        save_snapshotE true now block_number scores volumes t =
          Except.error ()) ∧
    (∀ (now uid : Int) (hk ck : String) (ea : Option String) (dv : List ℚ)
        (wv sc : ℚ) (t : List MinerRow),
        update_miner_dataE true now uid hk ck ea dv wv sc t =
          Except.error ()) ∧
    (∀ (now days : Int) (t : List BetEvent),
        cleanup_old_eventsE true now days t = Except.error ()) := by
  refine ⟨?_, ?_, ?_, ?_⟩
  · intro fault now ck a s m ts t
    cases fault <;> rfl
  · intros; rfl
  · intros; rfl
  · intros; rfl

/-- Witness for C8: a faulting wallet save returns false, a clean one
returns true, and a faulting snapshot save raises. -/
theorem wallet_mapping_error_contract_witness :
    (save_wallet_mapping true 5 "ck" "0xA" "s" "m" 1 []).2 = false ∧
    (save_wallet_mapping false 5 "ck" "0xA" "s" "m" 1 []).2 = true ∧
    save_snapshotE true 5 100 [] [] init_snapshots = Except.error () :=
  ⟨wallet_mapping_error_contract.1 true 5 "ck" "0xA" "s" "m" 1 [],
   wallet_mapping_error_contract.1 false 5 "ck" "0xA" "s" "m" 1 [],
   wallet_mapping_error_contract.2.1 5 100 [] [] init_snapshots⟩

/-- C9 counterexample: a purge call that removes nothing reports the
count nowhere — the log stays silent (and the Python function returns
None), so "every call reports the count removed to its caller" fails on
this input. -/
theorem purge_report_counterexample :
    cleanup_old_events 100 14 [⟨"0xaa", 1, 1, 0, 5, 100⟩] =
      { table := [⟨"0xaa", 1, 1, 0, 5, 100⟩], logged := none } := by
  decide

/-- C9 (amended): PurgeOlderThan returns nothing to its caller; the count
of removed events is only logged, and only when it is positive — the log
is silent exactly when the run removed zero events, and when it fires it
carries exactly the number of removed rows. -/
theorem purge_report_amended (now days : Int) (t : List BetEvent) :
    ((cleanup_old_events now days t).logged = none ↔
      (cleanup_old_events now days t).table.length = t.length) ∧
    (∀ n : Nat, (cleanup_old_events now days t).logged = some n →
      0 < n ∧ n + (cleanup_old_events now days t).table.length = t.length) := by
  have key := countP_add_length_filter
    (fun e => decide (e.timestamp < now - days * 86400)) t
  rw [cleanup_logged, cleanup_table]
  constructor
  · constructor
    · intro hnone
      by_cases hc : 0 < t.countP (fun e => decide (e.timestamp < now - days * 86400))
      · rw [if_pos hc] at hnone
        exact absurd hnone (by simp)
      · omega
    · intro hlen
      have hc : t.countP (fun e => decide (e.timestamp < now - days * 86400)) = 0 := by
        omega
      rw [hc]
      simp
  · intro n hn
    by_cases hc : 0 < t.countP (fun e => decide (e.timestamp < now - days * 86400))
    · rw [if_pos hc] at hn
      have hcn := Option.some_inj.mp hn
      omega
    · rw [if_neg hc] at hn
      exact absurd hn (by simp)

/-- Witness for the amended C9: a run removing one event logs exactly 1. -/
theorem purge_report_amended_witness :
    0 < 1 ∧
    1 + (cleanup_old_events 1209700 14 [⟨"0xaa", 1, 1, 0, 5, 50⟩]).table.length =
      ([⟨"0xaa", 1, 1, 0, 5, 50⟩] : List BetEvent).length :=
  (purge_report_amended 1209700 14 [⟨"0xaa", 1, 1, 0, 5, 50⟩]).2 1 (by decide)
